import Mathlib

/-!
# Verification of `wordpress-export-to-markdown` (src/index.js)

A shallow embedding of the pure core of `src/index.js`:

* the frontmatter pruning helpers `isObject` / `isEmpty` / `clean`,
  modelled over an inductive type `JValue` of JSON-like JavaScript values;
* the image/post linking pass `mergeImagesIntoPosts`;
* the path resolution functions `getPostDir` / `getPostFilename` and the
  slug fallback `getPostSlug`;
* the author lookup `getAuthorName` (a failed lookup throws in JS and is
  modelled as `none`);
* the text rewrites of `getPostContent` (the turndown engine itself is an
  external collaborator and is passed in as a function parameter);
* the image download scheduling of `writeFiles` (delay staggering).

JavaScript regex `replace` calls are modelled as explicit recursions over
`List Char` with the same leftmost, non-overlapping match semantics.
-/

namespace WpExport

/-! ## JavaScript values (for `isEmpty` / `clean`)

`clean` receives the frontmatter object: a nested structure of objects,
arrays, strings and other primitives.  `JValue` models exactly these.
Object fields are kept as an association list in key order
(`Object.keys` enumeration order). -/

inductive JValue where
  | vnull : JValue
  | vundef : JValue
  | vbool : Bool → JValue
  | vnum : Int → JValue
  | vstr : String → JValue
  | varr : List JValue → JValue
  | vobj : List (String × JValue) → JValue
deriving Repr, BEq

/-- JavaScript truthiness (`!!value`): `null`, `undefined`, `false`, `0`
and `''` are falsy; every array and object is truthy. -/
def truthy : JValue → Bool
  | .vnull => false
  | .vundef => false
  | .vbool b => b
  | .vnum n => n != 0
  | .vstr s => s != ""
  | .varr _ => true
  | .vobj _ => true

/-- `isObject` from src/index.js: truthy, `typeof value === 'object'`, and
not an array.  Of the `JValue` constructors only `vobj` qualifies
(`null` has typeof `'object'` but is falsy). -/
def isObject : JValue → Bool
  | .vobj _ => true
  | _ => false

/-- `isEmpty` from src/index.js: an array is empty when it has no truthy
entry, an object when it has no keys, and otherwise the value is empty
when it is `null`, `undefined` or `''`. -/
def isEmpty : JValue → Bool
  | .varr xs => (xs.filter (fun v => truthy v)).length == 0
  | .vobj fs => fs.length == 0
  | .vnull => true
  | .vundef => true
  | .vstr s => s == ""
  | _ => false

/-- `clean` from src/index.js: arrays map `clean` over entries then drop
the empty results; objects keep a key only if its value is non-empty both
before and after the recursive cleaning; other values pass through. -/
def clean : JValue → JValue
  | .varr xs => .varr ((cleanArr xs).filter (fun v => !isEmpty v))
  | .vobj fs => .vobj (cleanObj fs)
  | v => v
where
  /-- `input.map(value => clean(value))` of the array branch. -/
  cleanArr : List JValue → List JValue
    | [] => []
    | x :: xs => clean x :: cleanArr xs
  /-- the `Object.keys(input).reduce(...)` of the object branch. -/
  cleanObj : List (String × JValue) → List (String × JValue)
    | [] => []
    | (k, v) :: fs =>
      if !isEmpty v then
        let w := clean v
        if !isEmpty w then (k, w) :: cleanObj fs else cleanObj fs
      else cleanObj fs

/-! ### Claims C3 and C10: properties of `isEmpty` / `clean` -/

/-- C3: the frontmatter-pruning function `clean` is idempotent: for every
nested structure `x` of arrays, objects and primitive values,
`clean (clean x) = clean x`. -/
theorem C3_clean_idempotent (x : JValue) : clean (clean x) = clean x := by
  refine clean.induct
    (fun xs => (clean.cleanArr ((clean.cleanArr xs).filter (fun w => !isEmpty w))).filter (fun w => !isEmpty w)
        = (clean.cleanArr xs).filter (fun w => !isEmpty w))
    (fun u => clean (clean u) = clean u)
    (fun fs => clean.cleanObj (clean.cleanObj fs) = clean.cleanObj fs)
    ?_ ?_ ?_ ?_ ?_ ?_ ?_ ?_ ?_ x
  · intro xs h
    simp [clean, h]
  · intro fs h
    simp [clean, h]
  · intro u h1 h2
    cases u <;> simp_all [clean]
  · rfl
  · intro y ys hy hys
    by_cases he : isEmpty (clean y)
    · simp [clean.cleanArr, List.filter_cons, he, hys]
    · simp [clean.cleanArr, List.filter_cons, he, hy, hys]
  · rfl
  · intro k v fs hv w hw hvv hfs
    have hw2 : isEmpty (clean v) = false := by simpa using hw
    simp [clean.cleanObj, hv, hw2, hvv, hfs]
  · intro k v fs hv w hw hvv hfs
    have hw2 : isEmpty (clean v) = true := by simpa using hw
    simp [clean.cleanObj, hv, hw2, hfs]
  · intro k v fs hv hfs
    simp [clean.cleanObj, hv, hfs]

/-- C10: `isEmpty` judges an array after discarding falsy entries, so an
array whose entries are all falsy (e.g. `[0]`, `[false]`, `['']`) counts as
empty even though it is non-empty, and the pruning step `clean` drops the
whole key holding such an array from an object. -/
theorem C10_all_falsy_array_key_pruned (k : String) (xs : List JValue)
    (rest : List (String × JValue)) (h : ∀ x ∈ xs, truthy x = false) :
    isEmpty (.varr xs) = true ∧
      clean (.vobj ((k, .varr xs) :: rest)) = clean (.vobj rest) := by
  have hempty : isEmpty (JValue.varr xs) = true := by
    simp [isEmpty, List.filter_eq_nil_iff]
    intro x hx
    simp [h x hx]
  refine ⟨hempty, ?_⟩
  simp [clean, clean.cleanObj, hempty]

/-- Witness for C10 at the concrete non-empty all-falsy array
`[0, false, '']` under key `"tags"`. -/
theorem C10_all_falsy_array_key_pruned_witness :
    isEmpty (.varr [JValue.vnum 0, JValue.vbool false, JValue.vstr ""]) = true ∧
      clean (.vobj [("tags", .varr [JValue.vnum 0, JValue.vbool false, JValue.vstr ""]),
          ("title", .vstr "t")])
        = clean (.vobj [("title", .vstr "t")]) :=
  C10_all_falsy_array_key_pruned "tags"
    [JValue.vnum 0, JValue.vbool false, JValue.vstr ""] [("title", .vstr "t")]
    (by intro x hx; fin_cases hx <;> rfl)

/-! ## Entities: images, posts, authors

The record types below mirror the objects built by `collectImages`,
`addContentImages`, `collectAuthors` and `collectPosts`. -/

/-- A calendar date.  `getPostDate` normalizes the post's `pubDate` to an
ISO `yyyy-MM-dd` string via luxon; `getPostDir` / `getPostFilename`
re-parse that string and format fields back out, so the date is modelled
structurally. -/
structure PDate where
  year : Nat
  month : Nat
  day : Nat
deriving Repr, DecidableEq

/-- The id of an Image record: a declared attachment carries its string
`post_id` (`collectImages`); an image scraped from post content gets the
JS number `-1` (`addContentImages`). -/
inductive ImageId where
  | scraped : ImageId
  | att : String → ImageId
deriving Repr, DecidableEq

/-- An image record `{id, postId, url}` as built by `collectImages` /
`addContentImages`. -/
structure Image where
  id : ImageId
  postId : String
  url : String
deriving Repr, DecidableEq

/-- `post.meta` as built by `collectPosts`.  `thumbnailImageId` and
`featureImageId` are `none` when the postmeta key is absent
(JS `undefined`, see `getPostThumbnailImage` / `getPostFeatureImage`).
`imageUrls` starts out absent in JS (`undefined`) and is modelled as
`[]`; `writeFiles` iterates it, so absent and empty are
indistinguishable downstream. -/
structure PostMeta where
  id : String
  slug : String
  path : String
  status : String
  thumbnailImageId : Option String
  featureImageId : Option String
  imageUrls : List String
deriving Repr, DecidableEq

/-- `post.frontmatter.images`: `none` models an unset field (the object
starts as `{}` and `mergeImagesIntoPosts` may assign the keys). -/
structure FmImages where
  thumbnail : Option String
  feature : Option String
deriving Repr, DecidableEq

/-- The slice of `post.frontmatter` read by the verified functions
(`date` by the path resolver, `images` by the linker); the remaining
frontmatter fields play no role in the claims. -/
structure Frontmatter where
  date : PDate
  images : FmImages
deriving Repr, DecidableEq

/-- A post as built by `collectPosts` (its `content` string is handled
separately by `getPostContent`). -/
structure Post where
  meta : PostMeta
  frontmatter : Frontmatter
deriving Repr, DecidableEq

/-- JS strict equality `image.id === <id field>` as used in
`mergeImagesIntoPosts`: an attachment id (string) compares by string
equality; the scraped sentinel (number `-1`) never equals a string or
`undefined`, and a string never equals `undefined`. -/
def idMatches : ImageId → Option String → Bool
  | .att s, some t => s == t
  | _, _ => false

/-- JS `url.split('/')`: split at every `'/'`, keeping empty segments
(`''.split('/')` gives `['']`, `'a/'.split('/')` gives `['a', '']`). -/
def splitSlash : List Char → List (List Char)
  | [] => [[]]
  | c :: rest =>
    match splitSlash rest with
    | [] => [[]]
    | g :: gs => if c == '/' then [] :: g :: gs else (c :: g) :: gs

/-- `getFilenameFromUrl`: `url.split('/').slice(-1)[0]`, the last
`'/'`-separated segment of the URL. -/
def getFilenameFromUrl (url : String) : String :=
  String.mk ((splitSlash url.data).getLastD [])

/-! ## The image/post linker (`mergeImagesIntoPosts`) -/

/-- Index of the last list entry satisfying `p`.  `mergeImagesIntoPosts`
builds `postsLookup` by assigning `lookup[post.meta.id] = post` over all
posts, so on duplicate ids the last post wins. -/
def findLastIdx {α : Type} (p : α → Bool) : List α → Option Nat
  | [] => none
  | x :: xs =>
    match findLastIdx p xs with
    | some i => some (i + 1)
    | none => if p x then some 0 else none

/-- Replace the element at index `i` by `f` applied to it (in-place
mutation of the matched post object in JS). -/
def modifyIdx {α : Type} (f : α → α) : List α → Nat → List α
  | [], _ => []
  | x :: xs, 0 => f x :: xs
  | x :: xs, i + 1 => x :: modifyIdx f xs i

/-- The post index `mergeImagesIntoPosts` picks for an image:
`posts.filter(o => o.meta.thumbnailImageId === image.id)[0]` — the
earliest thumbnail-id match — and otherwise `postsLookup[image.postId]`,
the last post whose `meta.id` equals the image's `postId`. -/
def mergeTargetIdx (posts : List Post) (image : Image) : Option Nat :=
  match posts.findIdx? (fun o => idMatches image.id o.meta.thumbnailImageId) with
  | some i => some i
  | none => findLastIdx (fun o => o.meta.id == image.postId) posts

/-- The update applied to the matched post inside `mergeImagesIntoPosts`:
push the image URL onto `meta.imageUrls`, then set
`frontmatter.images.thumbnail` / `.feature` when the image id strictly
equals the respective meta id. -/
def mergePostImage (post : Post) (image : Image) : Post :=
  let post := { post with meta := { post.meta with
    imageUrls := post.meta.imageUrls ++ [image.url] } }
  let post := if idMatches image.id post.meta.thumbnailImageId then
      { post with frontmatter := { post.frontmatter with
        images := { post.frontmatter.images with
          thumbnail := some ("./images/" ++ getFilenameFromUrl image.url) } } }
    else post
  if idMatches image.id post.meta.featureImageId then
    { post with frontmatter := { post.frontmatter with
      images := { post.frontmatter.images with
        feature := some ("./images/" ++ getFilenameFromUrl image.url) } } }
  else post

/-- One iteration of the `images.forEach(image => ...)` body of
`mergeImagesIntoPosts`: when a target post exists it is updated in
place, otherwise the image is dropped. -/
def mergeImageStep (posts : List Post) (image : Image) : List Post :=
  match mergeTargetIdx posts image with
  | none => posts
  | some i => modifyIdx (fun post => mergePostImage post image) posts i

/-- `mergeImagesIntoPosts`: process the images in order.  The JS builds
`postsLookup` once up front over the shared post objects; since the
per-image update never changes `meta.id` (nor the thumbnail/feature
ids), recomputing the target per image is equivalent. -/
def mergeImagesIntoPosts (images : List Image) (posts : List Post) : List Post :=
  images.foldl mergeImageStep posts

/-! ### Index lemmas for `modifyIdx`, `findLastIdx` and `findIdx?` -/

theorem modifyIdx_getElem?_self {α : Type} (f : α → α) (l : List α) (i : Nat) :
    (modifyIdx f l i)[i]? = (l[i]?).map f := by
  induction l generalizing i with
  | nil => simp [modifyIdx]
  | cons x xs ih => cases i <;> simp [modifyIdx, ih]

theorem modifyIdx_getElem?_ne {α : Type} (f : α → α) (l : List α) (i j : Nat) (h : j ≠ i) :
    (modifyIdx f l i)[j]? = l[j]? := by
  induction l generalizing i j with
  | nil => simp [modifyIdx]
  | cons x xs ih =>
    cases i with
    | zero =>
      cases j with
      | zero => exact absurd rfl h
      | succ j => simp [modifyIdx]
    | succ i =>
      cases j with
      | zero => simp [modifyIdx]
      | succ j => simpa [modifyIdx] using ih i j (by omega)

theorem findLastIdx_eq_none_iff {α : Type} (p : α → Bool) (l : List α) :
    findLastIdx p l = none ↔ ∀ x ∈ l, p x = false := by
  induction l with
  | nil => simp [findLastIdx]
  | cons x xs ih =>
    simp only [findLastIdx]
    cases h : findLastIdx p xs with
    | some i =>
      simp only [List.mem_cons]
      constructor
      · intro hc; cases hc
      · intro hall
        have hnone : findLastIdx p xs = none := ih.mpr (fun y hy => hall y (Or.inr hy))
        rw [hnone] at h; cases h
    | none =>
      have hxs := ih.mp h
      by_cases hx : p x = true
      · rw [if_pos hx]
        simp only [List.mem_cons]
        constructor
        · intro hc; cases hc
        · intro hall; exact absurd (hall x (Or.inl rfl)) (by simp [hx])
      · rw [if_neg hx]
        simp only [List.mem_cons]
        constructor
        · intro _ y hy
          rcases hy with rfl | hy
          · simpa using hx
          · exact hxs y hy
        · intro _; trivial

theorem findLastIdx_eq_some_iff {α : Type} (p : α → Bool) (l : List α) (i : Nat) :
    findLastIdx p l = some i ↔
      ∃ h : i < l.length, p (l.get ⟨i, h⟩) = true ∧
        ∀ j (hj : j < l.length), i < j → p (l.get ⟨j, hj⟩) = false := by
  simp only [List.get_eq_getElem]
  induction l generalizing i with
  | nil => simp [findLastIdx]
  | cons x xs ih =>
    simp only [findLastIdx]
    cases h : findLastIdx p xs with
    | some k =>
      simp only []
      constructor
      · rintro hk
        cases hk
        have := (ih k).mp h
        obtain ⟨hlt, hpk, hrest⟩ := this
        refine ⟨by simpa using Nat.succ_lt_succ hlt, by simpa using hpk, ?_⟩
        intro j hj hgt
        cases j with
        | zero => omega
        | succ j => simpa using hrest j (by simpa using hj) (by omega)
      · rintro ⟨hlt, hpi, hrest⟩
        cases i with
        | zero =>
          exfalso
          have hall : ∀ y ∈ xs, p y = false := by
            intro y hy
            obtain ⟨j, hj, rfl⟩ := List.mem_iff_getElem.mp hy
            have := hrest (j+1) (by simpa using Nat.succ_lt_succ hj) (by omega)
            simpa using this
          rw [← findLastIdx_eq_none_iff] at hall
          rw [hall] at h; cases h
        | succ i =>
          have : findLastIdx p xs = some i := by
            rw [ih]
            refine ⟨by simpa using hlt, by simpa using hpi, ?_⟩
            intro j hj hgt
            have := hrest (j+1) (by simpa using Nat.succ_lt_succ hj) (by omega)
            simpa using this
          rw [this] at h
          cases h
          rfl
    | none =>
      have hall := (findLastIdx_eq_none_iff p xs).mp h
      by_cases hx : p x = true
      · simp only [hx, if_true]
        constructor
        · rintro hk
          cases hk
          refine ⟨by simp, by simpa using hx, ?_⟩
          intro j hj hgt
          cases j with
          | zero => omega
          | succ j => simpa using hall _ (by simp)
        · rintro ⟨hlt, hpi, hrest⟩
          cases i with
          | zero => rfl
          | succ i =>
            exfalso
            have hlt2 : i < xs.length := by simpa using hlt
            have h1 : p (xs.get ⟨i, hlt2⟩) = false := hall _ (List.get_mem xs i hlt2)
            have h2 : p (xs.get ⟨i, hlt2⟩) = true := by
              simp only [List.get_eq_getElem]
              simpa using hpi
            rw [h1] at h2; cases h2
      · simp only [hx, if_false]
        constructor
        · intro hc; cases hc
        · rintro ⟨hlt, hpi, hrest⟩
          exfalso
          cases i with
          | zero => exact hx (by simpa using hpi)
          | succ i =>
            have hlt2 : i < xs.length := by simpa using hlt
            have h1 : p (xs.get ⟨i, hlt2⟩) = false := hall _ (List.get_mem xs i hlt2)
            have h2 : p (xs.get ⟨i, hlt2⟩) = true := by
              simp only [List.get_eq_getElem]
              simpa using hpi
            rw [h1] at h2; cases h2

/-! ### What `mergePostImage` does to the post record -/

theorem mergePostImage_meta (p : Post) (img : Image) :
    (mergePostImage p img).meta = { p.meta with imageUrls := p.meta.imageUrls ++ [img.url] } := by
  unfold mergePostImage
  dsimp only
  split <;> split <;> rfl

theorem mergePostImage_thumbnail (p : Post) (img : Image) :
    (mergePostImage p img).frontmatter.images.thumbnail
      = if idMatches img.id p.meta.thumbnailImageId then
          some ("./images/" ++ getFilenameFromUrl img.url)
        else p.frontmatter.images.thumbnail := by
  unfold mergePostImage
  dsimp only
  split <;> split <;> simp_all

theorem mergePostImage_feature (p : Post) (img : Image) :
    (mergePostImage p img).frontmatter.images.feature
      = if idMatches img.id p.meta.featureImageId then
          some ("./images/" ++ getFilenameFromUrl img.url)
        else p.frontmatter.images.feature := by
  unfold mergePostImage
  dsimp only
  split <;> split <;> simp_all

/-! ### Agreement machinery for C1

Two post lists are linked identically (up to `imageUrls`) when they agree
pointwise on everything the linker reads and on the thumbnail/feature
output fields. -/

/-- Agreement on everything the linker's match rules read (`meta.id`,
thumbnail/feature ids) plus the thumbnail/feature output fields;
`meta.imageUrls` may differ. -/
def postEquiv (p q : Post) : Prop :=
  p.meta.id = q.meta.id ∧
  p.meta.thumbnailImageId = q.meta.thumbnailImageId ∧
  p.meta.featureImageId = q.meta.featureImageId ∧
  p.frontmatter.images = q.frontmatter.images

theorem postEquiv_refl (p : Post) : postEquiv p p := ⟨rfl, rfl, rfl, rfl⟩

theorem idMatches_scraped (x : Option String) : idMatches ImageId.scraped x = false := by
  cases x <;> rfl

theorem FmImages.ext' (a b : FmImages) (h1 : a.thumbnail = b.thumbnail)
    (h2 : a.feature = b.feature) : a = b := by
  cases a; cases b; simp_all

theorem mergePostImage_equiv (p q : Post) (img : Image) (h : postEquiv p q) :
    postEquiv (mergePostImage p img) (mergePostImage q img) := by
  obtain ⟨h1, h2, h3, h4⟩ := h
  refine ⟨?_, ?_, ?_, ?_⟩
  · rw [mergePostImage_meta, mergePostImage_meta]; exact h1
  · rw [mergePostImage_meta, mergePostImage_meta]; exact h2
  · rw [mergePostImage_meta, mergePostImage_meta]; exact h3
  · refine FmImages.ext' _ _ ?_ ?_
    · rw [mergePostImage_thumbnail, mergePostImage_thumbnail, h2, h4]
    · rw [mergePostImage_feature, mergePostImage_feature, h3, h4]

theorem mergePostImage_scraped_equiv (p q : Post) (img : Image)
    (hs : img.id = ImageId.scraped) (h : postEquiv p q) :
    postEquiv (mergePostImage p img) q := by
  obtain ⟨h1, h2, h3, h4⟩ := h
  refine ⟨?_, ?_, ?_, ?_⟩
  · rw [mergePostImage_meta]; exact h1
  · rw [mergePostImage_meta]; exact h2
  · rw [mergePostImage_meta]; exact h3
  · refine FmImages.ext' _ _ ?_ ?_
    · rw [mergePostImage_thumbnail, hs, idMatches_scraped]
      simpa using congrArg FmImages.thumbnail h4
    · rw [mergePostImage_feature, hs, idMatches_scraped]
      simpa using congrArg FmImages.feature h4

theorem findIdx?_thumb_congr (img : Image) (ps qs : List Post)
    (h : List.Forall₂ postEquiv ps qs) : ∀ i : Nat,
    ps.findIdx? (fun o => idMatches img.id o.meta.thumbnailImageId) i
      = qs.findIdx? (fun o => idMatches img.id o.meta.thumbnailImageId) i := by
  induction h with
  | nil => intro i; rfl
  | cons hpq hrest ih =>
    intro i
    rw [List.findIdx?_cons, List.findIdx?_cons, hpq.2.1]
    cases hc : idMatches img.id _ <;> simp [hc, ih]

theorem findLastIdx_id_congr (img : Image) (ps qs : List Post)
    (h : List.Forall₂ postEquiv ps qs) :
    findLastIdx (fun o => o.meta.id == img.postId) ps
      = findLastIdx (fun o => o.meta.id == img.postId) qs := by
  induction h with
  | nil => rfl
  | cons hpq hrest ih => simp only [findLastIdx, ih, hpq.1]

theorem mergeTargetIdx_congr (posts posts' : List Post) (img : Image)
    (h : List.Forall₂ postEquiv posts posts') :
    mergeTargetIdx posts img = mergeTargetIdx posts' img := by
  unfold mergeTargetIdx
  rw [findIdx?_thumb_congr img posts posts' h 0, findLastIdx_id_congr img posts posts' h]

theorem modifyIdx_forall₂ {R : Post → Post → Prop} (f g : Post → Post)
    (hf : ∀ p q, R p q → R (f p) (g q)) (l l' : List Post)
    (h : List.Forall₂ R l l') : ∀ i : Nat,
    List.Forall₂ R (modifyIdx f l i) (modifyIdx g l' i) := by
  induction h with
  | nil => intro i; exact List.Forall₂.nil
  | cons hpq hrest ih =>
    intro i
    cases i with
    | zero => exact List.Forall₂.cons (hf _ _ hpq) hrest
    | succ i => exact List.Forall₂.cons hpq (ih i)

theorem modifyIdx_forall₂_left {R : Post → Post → Prop} (f : Post → Post)
    (l l' : List Post) (h : List.Forall₂ R l l')
    (hf : ∀ p q, R p q → R (f p) q) : ∀ i : Nat,
    List.Forall₂ R (modifyIdx f l i) l' := by
  induction h with
  | nil => intro i; exact List.Forall₂.nil
  | cons hpq hrest ih =>
    intro i
    cases i with
    | zero => exact List.Forall₂.cons (hf _ _ hpq) hrest
    | succ i => exact List.Forall₂.cons hpq (ih i)

theorem mergeImageStep_agree (posts posts' : List Post) (img : Image)
    (h : List.Forall₂ postEquiv posts posts') :
    List.Forall₂ postEquiv (mergeImageStep posts img) (mergeImageStep posts' img) := by
  unfold mergeImageStep
  rw [mergeTargetIdx_congr posts posts' img h]
  cases ht : mergeTargetIdx posts' img with
  | none => exact h
  | some i => exact modifyIdx_forall₂ _ _ (fun p q hpq => mergePostImage_equiv p q img hpq) _ _ h i

theorem mergeImageStep_scraped_agree (posts posts' : List Post) (img : Image)
    (hs : img.id = ImageId.scraped) (h : List.Forall₂ postEquiv posts posts') :
    List.Forall₂ postEquiv (mergeImageStep posts img) posts' := by
  unfold mergeImageStep
  cases ht : mergeTargetIdx posts img with
  | none => exact h
  | some i =>
    exact modifyIdx_forall₂_left _ _ _ h
      (fun p q hpq => mergePostImage_scraped_equiv p q img hs hpq) i

theorem merge_scraped_drop (images : List Image) (posts posts' : List Post)
    (h : List.Forall₂ postEquiv posts posts') :
    List.Forall₂ postEquiv (mergeImagesIntoPosts images posts)
      (mergeImagesIntoPosts (images.filter (fun img => img.id != ImageId.scraped)) posts') := by
  induction images generalizing posts posts' with
  | nil => simpa [mergeImagesIntoPosts] using h
  | cons img rest ih =>
    by_cases hs : img.id = ImageId.scraped
    · have hfilter : (img :: rest).filter (fun i => i.id != ImageId.scraped)
          = rest.filter (fun i => i.id != ImageId.scraped) := by
        simp [List.filter_cons, hs]
      rw [hfilter]
      show List.Forall₂ postEquiv (mergeImagesIntoPosts rest (mergeImageStep posts img)) _
      exact ih _ _ (mergeImageStep_scraped_agree posts posts' img hs h)
    · have hfilter : (img :: rest).filter (fun i => i.id != ImageId.scraped)
          = img :: rest.filter (fun i => i.id != ImageId.scraped) := by
        simp [List.filter_cons, hs]
      rw [hfilter]
      show List.Forall₂ postEquiv (mergeImagesIntoPosts rest (mergeImageStep posts img))
        (mergeImagesIntoPosts (rest.filter (fun i => i.id != ImageId.scraped))
          (mergeImageStep posts' img))
      exact ih _ _ (mergeImageStep_agree posts posts' img h)

theorem forall₂_map_images (l l' : List Post) (h : List.Forall₂ postEquiv l l') :
    l.map (fun p => p.frontmatter.images) = l'.map (fun p => p.frontmatter.images) := by
  induction h with
  | nil => rfl
  | cons hpq hrest ih => simp [hpq.2.2.2, ih]

/-! ### Claims C1, C2 and C4: the image/post linker -/

/-- C1: scraped content images (`id = -1`) never populate any post's
`frontmatter.images.thumbnail` or `.feature`: the thumbnail/feature
fields produced by `mergeImagesIntoPosts` are the same as when every
scraped image is removed from the input, so only declared attachment
images (string ids) can populate them, regardless of the scraped
image's URL. -/
theorem C1_scraped_never_thumbnail_or_feature (images : List Image) (posts : List Post) :
    (mergeImagesIntoPosts images posts).map (fun p => p.frontmatter.images)
      = (mergeImagesIntoPosts (images.filter (fun img => img.id != ImageId.scraped)) posts).map
          (fun p => p.frontmatter.images) :=
  forall₂_map_images _ _
    (merge_scraped_drop images posts posts
      ((List.forall₂_same).mpr (fun p _ => postEquiv_refl p)))

/-- C2: each image is assigned to at most one post: every non-target
index is untouched; with no target the image is dropped and the post
list is unchanged; on a match the image URL is appended to the target's
`meta.imageUrls`.  The target is the earliest post whose
`thumbnailImageId` equals the image id, else the unique post whose
`meta.id` equals the image's `postId`, else none. -/
theorem C2_image_assignment (posts : List Post) (image : Image) :
    (∀ j : Nat, mergeTargetIdx posts image ≠ some j →
        (mergeImageStep posts image)[j]? = posts[j]?) ∧
    (mergeTargetIdx posts image = none → mergeImageStep posts image = posts) ∧
    (∀ i : Nat, mergeTargetIdx posts image = some i →
        ((mergeImageStep posts image)[i]?).map (fun p => p.meta.imageUrls)
          = (posts[i]?).map (fun p => p.meta.imageUrls ++ [image.url])) ∧
    (∀ (i : Nat) (h : i < posts.length),
        idMatches image.id (posts.get ⟨i, h⟩).meta.thumbnailImageId = true →
        (∀ (j : Nat) (hj : j < i),
          idMatches image.id ((posts.get ⟨j, Nat.lt_trans hj h⟩).meta.thumbnailImageId) = false) →
        mergeTargetIdx posts image = some i) ∧
    ((∀ x ∈ posts, idMatches image.id x.meta.thumbnailImageId = false) →
      ∀ (i : Nat) (h : i < posts.length),
        ((posts.get ⟨i, h⟩).meta.id == image.postId) = true →
        (∀ (j : Nat) (hj : j < posts.length), j ≠ i →
          ((posts.get ⟨j, hj⟩).meta.id == image.postId) = false) →
        mergeTargetIdx posts image = some i) ∧
    ((∀ x ∈ posts, idMatches image.id x.meta.thumbnailImageId = false) →
     (∀ x ∈ posts, (x.meta.id == image.postId) = false) →
      mergeTargetIdx posts image = none) := by
  refine ⟨?_, ?_, ?_, ?_, ?_, ?_⟩
  · intro j hj
    unfold mergeImageStep
    cases h : mergeTargetIdx posts image with
    | none => rfl
    | some i =>
      rw [h] at hj
      exact modifyIdx_getElem?_ne _ posts i j (by intro hji; exact hj (by rw [hji]))
  · intro h
    unfold mergeImageStep
    rw [h]
  · intro i h
    unfold mergeImageStep
    rw [h]
    rw [modifyIdx_getElem?_self]
    cases hp : posts[i]? with
    | none => rfl
    | some p => simp [mergePostImage_meta]
  · intro i h hmatch hfirst
    unfold mergeTargetIdx
    have hfi : posts.findIdx? (fun o => idMatches image.id o.meta.thumbnailImageId) = some i := by
      rw [List.findIdx?_eq_some_iff_getElem]
      refine ⟨h, by simpa using hmatch, fun j hj => ?_⟩
      have := hfirst j hj
      simp only [List.get_eq_getElem] at this
      simp [this]
    rw [hfi]
  · intro hnothumb i h hid huniq
    unfold mergeTargetIdx
    have hfi : posts.findIdx? (fun o => idMatches image.id o.meta.thumbnailImageId) = none := by
      rw [List.findIdx?_eq_none_iff]
      exact hnothumb
    rw [hfi]
    rw [findLastIdx_eq_some_iff]
    refine ⟨h, hid, ?_⟩
    intro j hj hgt
    exact huniq j hj (by omega)
  · intro hnothumb hnoid
    unfold mergeTargetIdx
    have hfi : posts.findIdx? (fun o => idMatches image.id o.meta.thumbnailImageId) = none := by
      rw [List.findIdx?_eq_none_iff]
      exact hnothumb
    rw [hfi]
    rw [findLastIdx_eq_none_iff]
    exact hnoid

/-- C4: an image matched to a post through the thumbnail-id rule sets
that post's `frontmatter.images.thumbnail` to exactly `'./images/'`
followed by the last `'/'`-separated segment of the image URL. -/
theorem C4_thumbnail_relative_path (posts : List Post) (image : Image) (i : Nat) (p : Post)
    (hp : posts[i]? = some p)
    (hm : idMatches image.id p.meta.thumbnailImageId = true)
    (ht : mergeTargetIdx posts image = some i) :
    ((mergeImageStep posts image)[i]?).map (fun q => q.frontmatter.images.thumbnail)
      = some (some ("./images/" ++ String.mk ((splitSlash image.url.data).getLastD []))) := by
  unfold mergeImageStep
  rw [ht, modifyIdx_getElem?_self, hp]
  simp [mergePostImage_thumbnail, hm, getFilenameFromUrl]

/-! ### Concrete records used by the claim witnesses -/

def demoPostA : Post :=
  { meta := { id := "1", slug := "first-post", path := "first-post", status := "publish",
              thumbnailImageId := none, featureImageId := none, imageUrls := [] },
    frontmatter := { date := ⟨2021, 6, 15⟩, images := ⟨none, none⟩ } }

def demoPostB : Post :=
  { meta := { id := "2", slug := "second-post", path := "second-post", status := "publish",
              thumbnailImageId := some "7", featureImageId := none, imageUrls := [] },
    frontmatter := { date := ⟨2021, 6, 15⟩, images := ⟨none, none⟩ } }

def demoImage : Image :=
  { id := ImageId.att "7", postId := "2", url := "https://example.com/img/pic.png" }

/-- Witness for C2 at two concrete posts: the image matches the second
post's thumbnail id, the first post is untouched and the URL is appended
to the second post's `imageUrls`. -/
theorem C2_image_assignment_witness :
    (mergeImageStep [demoPostA, demoPostB] demoImage)[0]? = some demoPostA ∧
    ((mergeImageStep [demoPostA, demoPostB] demoImage)[1]?).map (fun p => p.meta.imageUrls)
      = some ["https://example.com/img/pic.png"] := by
  have h := C2_image_assignment [demoPostA, demoPostB] demoImage
  refine ⟨?_, ?_⟩
  · rw [h.1 0 (by decide)]; rfl
  · rw [h.2.2.1 1 (by decide)]; rfl

/-- Witness for C4 at the same concrete records: the resulting thumbnail
is `./images/pic.png`. -/
theorem C4_thumbnail_relative_path_witness :
    ((mergeImageStep [demoPostA, demoPostB] demoImage)[1]?).map
        (fun q => q.frontmatter.images.thumbnail)
      = some (some "./images/pic.png") := by
  rw [C4_thumbnail_relative_path [demoPostA, demoPostB] demoImage 1 demoPostB rfl rfl (by decide)]
  rfl

/-! ## The path resolver (`getPostDir` / `getPostFilename`) -/

/-- luxon `dt.toFormat('LL')` / `'dd'`: zero-padded to two digits. -/
def pad2 (n : Nat) : String := if n < 10 then "0" ++ toString n else toString n

/-- luxon `dt.toFormat('yyyy')`: zero-padded to four digits. -/
def pad4 (n : Nat) : String :=
  if n < 10 then "000" ++ toString n
  else if n < 100 then "00" ++ toString n
  else if n < 1000 then "0" ++ toString n
  else toString n

/-- luxon `dt.toFormat('yyyy-LL-dd')`. -/
def fmtYMD (d : PDate) : String := pad4 d.year ++ "-" ++ pad2 d.month ++ "-" ++ pad2 d.day

/-- Node `path.join` on the two-argument calls appearing here: join with
a single `'/'` (no normalization is relevant to the verified claims). -/
def pathJoin (a b : String) : String := a ++ "/" ++ b

/-- The CLI options (`argv`) read by the verified functions.  `input`
and `filter` only affect which file is read and which posts are kept,
not the functions modelled here. -/
structure Argv where
  output : String
  folders : String
  prefixdate : Bool
  namedfiles : Bool
  saveimages : Bool
  addcontentimages : Bool
deriving Repr, DecidableEq

/-- `getPostDir` from src/index.js: the `switch (argv.folders)` over the
four layout modes, with the base output directory as the fall-through
result. -/
def getPostDir (argv : Argv) (post : Post) : String :=
  let dir := argv.output
  let dt := post.frontmatter.date
  match argv.folders with
  | "year" => pathJoin dir (pad4 dt.year)
  | "yearmonth" => pathJoin (pathJoin dir (pad4 dt.year)) (pad2 dt.month)
  | "path" =>
    if post.meta.status == "draft" then pathJoin (pathJoin dir "drafts") post.meta.slug
    else pathJoin dir post.meta.path
  | "post" =>
    let folder := if argv.prefixdate then fmtYMD dt ++ "-" ++ post.meta.slug else post.meta.slug
    pathJoin dir folder
  | _ => dir

/-- `pat` occurs at the head of the list. -/
def leadMatch : List Char → List Char → Bool
  | _, [] => true
  | [], _ :: _ => false
  | c :: cs, d :: ds => c == d && leadMatch cs ds

/-- `pat` occurs somewhere in the list (substring containment). -/
def hasSub : List Char → List Char → Bool
  | [], pat => pat.isEmpty
  | c :: cs, pat => leadMatch (c :: cs) pat || hasSub cs pat

/-- The JS regex test `/pat/.test(s)` for a literal pattern: substring
containment. -/
def strTest (s pat : String) : Bool := hasSub s.data pat.data

/-- `getPostSlug`: `post.post_name[0] || post.post_id[0]` — the name,
falling back to the id when the name is the empty string (falsy). -/
def getPostSlug (name id : String) : String := if name == "" then id else name

/-- `getPostFilename` from src/index.js.  Note the mode test is the
regex `/path|post/.test(argv.folders)`, a substring test on the mode
string. -/
def getPostFilename (argv : Argv) (post : Post) : String :=
  let filename := post.meta.slug ++ ".md"
  if strTest argv.folders "path" || strTest argv.folders "post" then
    if argv.namedfiles then filename else "index.md"
  else if argv.prefixdate then fmtYMD post.frontmatter.date ++ "-" ++ filename
  else filename

/-! ### Claims C5 and C6: the path resolver -/

/-- C5: `getPostDir` is determined solely by the layout mode: `year`
gives `<base>/<4-digit year>` (independent of slug and path),
`yearmonth` gives `<base>/<year>/<2-digit month>`, `path` gives
`<base>/drafts/<slug>` for drafts and `<base>/<derived path>` otherwise,
`post` gives `<base>/<slug>` with an optional date prefix, and any other
mode string returns the base output directory unchanged. -/
theorem C5_getPostDir_by_mode (argv : Argv) (post : Post) :
    (argv.folders = "year" →
      getPostDir argv post = pathJoin argv.output (pad4 post.frontmatter.date.year) ∧
      ∀ post' : Post, post'.frontmatter.date = post.frontmatter.date →
        getPostDir argv post' = getPostDir argv post) ∧
    (argv.folders = "yearmonth" →
      getPostDir argv post
        = pathJoin (pathJoin argv.output (pad4 post.frontmatter.date.year))
            (pad2 post.frontmatter.date.month)) ∧
    (argv.folders = "path" →
      getPostDir argv post
        = if post.meta.status = "draft" then
            pathJoin (pathJoin argv.output "drafts") post.meta.slug
          else pathJoin argv.output post.meta.path) ∧
    (argv.folders = "post" →
      getPostDir argv post
        = pathJoin argv.output
            (if argv.prefixdate then fmtYMD post.frontmatter.date ++ "-" ++ post.meta.slug
             else post.meta.slug)) ∧
    (argv.folders ∉ (["year", "yearmonth", "path", "post"] : List String) →
      getPostDir argv post = argv.output) := by
  refine ⟨?_, ?_, ?_, ?_, ?_⟩
  · intro h
    constructor
    · simp [getPostDir, h]
    · intro post' hdate
      simp [getPostDir, h, hdate]
  · intro h
    simp [getPostDir, h]
  · intro h
    simp [getPostDir, h]
  · intro h
    simp [getPostDir, h]
  · intro h
    simp only [List.mem_cons, List.not_mem_nil, or_false, not_or] at h
    obtain ⟨h1, h2, h3, h4⟩ := h
    unfold getPostDir
    split <;> simp_all

/-- C6: `getPostFilename` returns `index.md` under modes `path` and
`post` unless `namedfiles` is set (then `<slug>.md`); under `year` and
`yearmonth` it returns `<slug>.md`, date-prefixed when `prefixdate` is
set; and the slug falls back to the post id when the name is blank, so
a post with an empty name under mode `post` with `namedfiles=false`
still yields `index.md`. -/
theorem C6_getPostFilename_policy (argv : Argv) (post : Post) :
    ((argv.folders = "path" ∨ argv.folders = "post") →
      getPostFilename argv post
        = if argv.namedfiles then post.meta.slug ++ ".md" else "index.md") ∧
    ((argv.folders = "year" ∨ argv.folders = "yearmonth") →
      getPostFilename argv post
        = if argv.prefixdate then
            fmtYMD post.frontmatter.date ++ "-" ++ (post.meta.slug ++ ".md")
          else post.meta.slug ++ ".md") ∧
    (∀ id : String, getPostSlug "" id = id) ∧
    (argv.folders = "post" → argv.namedfiles = false →
      getPostFilename argv post = "index.md") := by
  refine ⟨?_, ?_, ?_, ?_⟩
  · rintro (h | h) <;>
    · have ht : (strTest argv.folders "path" || strTest argv.folders "post") = true := by
        rw [h]; decide
      simp [getPostFilename, ht]
  · rintro (h | h) <;>
    · have ht : (strTest argv.folders "path" || strTest argv.folders "post") = false := by
        rw [h]; decide
      simp [getPostFilename, ht]
  · intro id; rfl
  · intro h hn
    have ht : (strTest argv.folders "path" || strTest argv.folders "post") = true := by
      rw [h]; decide
    simp [getPostFilename, ht, hn]

def demoArgvYear : Argv := ⟨"output", "year", false, false, true, true⟩
def demoArgvBad : Argv := ⟨"output", "flat", false, false, true, true⟩
def demoArgvPost : Argv := ⟨"output", "post", false, false, true, true⟩

/-- Witness for C5: a post dated 2021-06-15 lands in `output/2021` under
mode `year`, and an unrecognized mode leaves the base directory. -/
theorem C5_getPostDir_by_mode_witness :
    getPostDir demoArgvYear demoPostA = "output/2021" ∧
    getPostDir demoArgvBad demoPostA = "output" := by
  constructor
  · rw [((C5_getPostDir_by_mode demoArgvYear demoPostA).1 rfl).1]; rfl
  · rw [(C5_getPostDir_by_mode demoArgvBad demoPostA).2.2.2.2 (by decide)]; rfl

/-- Witness for C6: the slug fallback, and `index.md` under mode `post`
with `namedfiles=false`. -/
theorem C6_getPostFilename_policy_witness :
    getPostSlug "" "123" = "123" ∧ getPostFilename demoArgvPost demoPostA = "index.md" :=
  ⟨(C6_getPostFilename_policy demoArgvPost demoPostA).2.2.1 "123",
   (C6_getPostFilename_policy demoArgvPost demoPostA).2.2.2 rfl rfl⟩

/-! ## Author lookup (`getAuthorName`) — claim C7 -/

/-- An author record `{id, name}` from `collectAuthors`. -/
structure Author where
  id : String
  name : String
deriving Repr, DecidableEq

/-- `getAuthorName`: `authors.find(item => item.id === id).name`.  When
no author matches, the JS dereference `undefined.name` throws a
`TypeError` that aborts the run; that failure is modelled as `none`. -/
def getAuthorName (authors : List Author) (id : String) : Option String :=
  (authors.find? (fun item => item.id == id)).map (fun item => item.name)

/-- C7: resolving an unknown author id fails (no fallback author name is
substituted), and a known author id resolves to that author's display
name. -/
theorem C7_author_lookup (authors : List Author) (id : String) :
    ((∀ a ∈ authors, a.id ≠ id) → getAuthorName authors id = none) ∧
    (∀ a ∈ authors, a.id = id →
      (∀ b ∈ authors, b.id = id → b = a) →
      getAuthorName authors id = some a.name) := by
  constructor
  · intro h
    unfold getAuthorName
    rw [List.find?_eq_none.mpr]
    · rfl
    · intro x hx
      simp [h x hx]
  · intro a ha haid huniq
    unfold getAuthorName
    cases hf : authors.find? (fun item => item.id == id) with
    | none =>
      exfalso
      have := List.find?_eq_none.mp hf a ha
      simp [haid] at this
    | some b =>
      have hb : b ∈ authors := List.mem_of_find?_eq_some hf
      have hbid := List.find?_some hf
      have : b = a := huniq b hb (by simpa using hbid)
      simp [this]

def demoAuthors : List Author := [⟨"alice", "Alice A"⟩, ⟨"bob", "Bob B"⟩]

/-- Witness for C7: `carol` is unknown (lookup fails), `bob` resolves to
his display name. -/
theorem C7_author_lookup_witness :
    getAuthorName demoAuthors "carol" = none ∧
    getAuthorName demoAuthors "bob" = some "Bob B" :=
  ⟨(C7_author_lookup demoAuthors "carol").1 (by decide),
   (C7_author_lookup demoAuthors "bob").2 ⟨"bob", "Bob B"⟩ (by decide) rfl (by decide)⟩

/-! ## The download schedule of `writeFiles` — claim C9 -/

/-- One scheduled image download, i.e. one call
`writeImageFile(imageUrl, imageDir, delay)` issued by `writeFiles`. -/
structure ImageDownload where
  url : String
  dir : String
  delay : Nat
deriving Repr, DecidableEq

/-- The inner `post.meta.imageUrls.forEach(imageUrl => ...)` of
`writeFiles`: schedule each URL into `dir` at the current delay, then
increase the delay by 25. -/
def schedulePostImages (dir : String) (urls : List String)
    (acc : List ImageDownload × Nat) : List ImageDownload × Nat :=
  urls.foldl (fun acc url => (acc.1 ++ [⟨url, dir, acc.2⟩], acc.2 + 25)) acc

/-- The download schedule produced by `writeFiles` (its directory
creation and markdown writes are I/O and not modelled): `let delay = 0`
before the posts loop, and per post, if `--saveimages` is set, each of
the post's `imageUrls` is scheduled into `path.join(postDir, 'images')`;
the counter is shared across all posts. -/
def writeFilesSchedule (argv : Argv) (posts : List Post) : List ImageDownload :=
  (posts.foldl (fun acc post =>
    if argv.saveimages then
      schedulePostImages (pathJoin (getPostDir argv post) "images") post.meta.imageUrls acc
    else acc) ([], 0)).1

theorem schedulePostImages_urls (dir : String) (urls : List String)
    (acc : List ImageDownload × Nat) :
    (schedulePostImages dir urls acc).1.map (fun d => d.url)
      = acc.1.map (fun d => d.url) ++ urls := by
  induction urls generalizing acc with
  | nil => simp [schedulePostImages]
  | cons u us ih =>
    show (schedulePostImages dir us _).1.map _ = _
    rw [ih]
    simp

theorem schedulePostImages_delay (dir : String) (urls : List String)
    (acc : List ImageDownload × Nat)
    (hgood : ∀ (n : Nat) (d : ImageDownload), acc.1[n]? = some d → d.delay = 25 * n)
    (hk : acc.2 = 25 * acc.1.length) :
    (∀ (n : Nat) (d : ImageDownload),
        (schedulePostImages dir urls acc).1[n]? = some d → d.delay = 25 * n) ∧
    (schedulePostImages dir urls acc).2 = 25 * (schedulePostImages dir urls acc).1.length := by
  induction urls generalizing acc with
  | nil => exact ⟨hgood, hk⟩
  | cons u us ih =>
    show (∀ n d, (schedulePostImages dir us
        ⟨acc.1 ++ [⟨u, dir, acc.2⟩], acc.2 + 25⟩).1[n]? = some d → _) ∧ _
    apply ih
    · intro n d hn
      rcases Nat.lt_or_ge n acc.1.length with hlt | hge
      · rw [List.getElem?_append, if_pos hlt] at hn
        exact hgood n d hn
      · have hlen : n < acc.1.length + 1 := by
          have := List.getElem?_eq_some.mp hn
          simpa using this.1
        have hn' : n = acc.1.length := by omega
        subst hn'
        rw [List.getElem?_concat_length] at hn
        cases hn
        simpa using hk
    · simp [hk]
      ring

theorem writeFilesSchedule_fold_spec (argv : Argv) (posts : List Post)
    (hs : argv.saveimages = true) (acc : List ImageDownload × Nat)
    (hgood : ∀ (n : Nat) (d : ImageDownload), acc.1[n]? = some d → d.delay = 25 * n)
    (hk : acc.2 = 25 * acc.1.length) :
    (posts.foldl (fun acc post =>
        if argv.saveimages then
          schedulePostImages (pathJoin (getPostDir argv post) "images") post.meta.imageUrls acc
        else acc) acc).1.map (fun d => d.url)
      = acc.1.map (fun d => d.url) ++ (posts.map (fun p => p.meta.imageUrls)).flatten ∧
    (∀ (n : Nat) (d : ImageDownload),
        (posts.foldl (fun acc post =>
          if argv.saveimages then
            schedulePostImages (pathJoin (getPostDir argv post) "images") post.meta.imageUrls acc
          else acc) acc).1[n]? = some d → d.delay = 25 * n) := by
  induction posts generalizing acc with
  | nil => exact ⟨by simp, hgood⟩
  | cons p ps ih =>
    have hstep := schedulePostImages_delay (pathJoin (getPostDir argv p) "images")
      p.meta.imageUrls acc hgood hk
    have hrec := ih (schedulePostImages (pathJoin (getPostDir argv p) "images")
      p.meta.imageUrls acc) hstep.1 hstep.2
    simp only [List.foldl_cons, hs, if_true, List.map_cons, List.flatten_cons] at hrec ⊢
    constructor
    · rw [hrec.1, schedulePostImages_urls]
      simp
    · exact hrec.2

/-- C9: with image-saving enabled, the downloads are scheduled in
encounter order across all posts (the flattened `imageUrls`), and the
download at position `n` (0-based) starts with delay exactly `25·n` —
the counter is global and never resets between posts. -/
theorem C9_download_stagger (argv : Argv) (posts : List Post) (hs : argv.saveimages = true) :
    (writeFilesSchedule argv posts).map (fun d => d.url)
      = (posts.map (fun p => p.meta.imageUrls)).flatten ∧
    ∀ (n : Nat) (d : ImageDownload), (writeFilesSchedule argv posts)[n]? = some d →
      d.delay = 25 * n := by
  have h := writeFilesSchedule_fold_spec argv posts hs ([], 0)
    (by intro n d hn; simp at hn) rfl
  exact ⟨by simpa [writeFilesSchedule] using h.1, by simpa [writeFilesSchedule] using h.2⟩

def demoPostU1 : Post :=
  { meta := { id := "1", slug := "a", path := "a", status := "publish",
              thumbnailImageId := none, featureImageId := none,
              imageUrls := ["https://example.com/a1.png", "https://example.com/a2.png"] },
    frontmatter := { date := ⟨2021, 6, 15⟩, images := ⟨none, none⟩ } }

def demoPostU2 : Post :=
  { meta := { id := "2", slug := "b", path := "b", status := "publish",
              thumbnailImageId := none, featureImageId := none,
              imageUrls := ["https://example.com/b1.png"] },
    frontmatter := { date := ⟨2021, 6, 15⟩, images := ⟨none, none⟩ } }

/-- Witness for C9: two posts with 2 + 1 images schedule three downloads
in order; the third download (first of the second post) has delay 50,
showing the counter is not reset between posts. -/
theorem C9_download_stagger_witness :
    (writeFilesSchedule demoArgvYear [demoPostU1, demoPostU2]).map (fun d => d.url)
      = ["https://example.com/a1.png", "https://example.com/a2.png",
         "https://example.com/b1.png"] ∧
    ((writeFilesSchedule demoArgvYear [demoPostU1, demoPostU2])[2]?).map (fun d => d.delay)
      = some 50 := by
  have h := C9_download_stagger demoArgvYear [demoPostU1, demoPostU2] rfl
  refine ⟨by rw [h.1]; rfl, ?_⟩
  cases hd : (writeFilesSchedule demoArgvYear [demoPostU1, demoPostU2])[2]? with
  | none => exact absurd hd (by decide)
  | some d =>
    have hdel := h.2 2 d hd
    simp [hdel]

/-! ## The markup converter (`getPostContent`) — claim C8

`getPostContent` wraps the turndown engine with pre/post text rewrites.
The regex `replace` calls are modelled as recursions over `List Char`
with JS's leftmost, non-overlapping global-replace semantics; the
`iframe` and list-marker rewrites use a fuel argument (initialised to
the text length, an upper bound on the number of scan steps) so that
the definitions stay structurally recursive and computable. -/

/-- The zero-content separator element `getPostContent` inserts:
`'\n<div></div>\n'`. -/
def divSeparator : List Char := "\n<div></div>\n".data

/-- `content.replace(/(\r?\n){2}/g, '\n<div></div>\n')`: two consecutive
line-breaks, each `\r\n` or `\n` (`\r?` greedy), replaced left to right
without rescanning the replacement. -/
def divSepAux : List Char → List Char
  | '\r' :: '\n' :: '\r' :: '\n' :: rest => divSeparator ++ divSepAux rest
  | '\r' :: '\n' :: '\n' :: rest => divSeparator ++ divSepAux rest
  | '\n' :: '\r' :: '\n' :: rest => divSeparator ++ divSepAux rest
  | '\n' :: '\n' :: rest => divSeparator ++ divSepAux rest
  | c :: rest => c :: divSepAux rest
  | [] => []

example : String.mk (divSepAux "a\n\nb".data) = "a\n<div></div>\nb" := by rfl
example : String.mk (divSepAux "a\r\n\r\nb\n\n\n".data) = "a\n<div></div>\nb\n<div></div>\n\n" := by rfl

/-- JS `String.prototype.trim` (`post.encoded[0].trim()`), on the ASCII
whitespace relevant here. -/
def strTrim (l : List Char) : List Char :=
  ((l.dropWhile Char.isWhitespace).reverse.dropWhile Char.isWhitespace).reverse

/-- Case-insensitive match of a subject character against a pattern
character (the regex `/i` flag): exact, or an ASCII uppercase letter
against its lowercase counterpart (all pattern letters here are
lowercase; JS canonicalization never matches non-ASCII against ASCII). -/
def ciEq (c pat : Char) : Bool :=
  c == pat || (decide (65 ≤ c.toNat) && decide (c.toNat ≤ 90) && (c.toNat + 32 == pat.toNat))

/-- `pat` matches case-insensitively at the head of the list. -/
def ciLead : List Char → List Char → Bool
  | _, [] => true
  | [], _ :: _ => false
  | c :: cs, d :: ds => ciEq c d && ciLead cs ds

/-- The closing-iframe tag pattern `<\/iframe>`. -/
def iframePat : List Char := "</iframe>".data

/-- `content.replace(/(<\/iframe>)/gi, '.$1')`: insert a `'.'` before
every case-insensitive closing iframe tag (`$1` emits the matched text
verbatim) and continue scanning after the match.  `fuel` bounds the
number of scan steps; with `fuel ≥ length` (as in `iframeDot`) it never
runs out. -/
def iframeDotGo : Nat → List Char → List Char
  | _, [] => []
  | 0, l => l
  | fuel + 1, c :: rest =>
    if ciLead (c :: rest) iframePat then
      '.' :: ((c :: rest).take 9 ++ iframeDotGo fuel ((c :: rest).drop 9))
    else c :: iframeDotGo fuel rest

def iframeDot (l : List Char) : List Char := iframeDotGo l.length l

/-- `content.replace(/\.(<\/iframe>)/gi, '$1')`: drop the `'.'` before
every case-insensitive closing iframe tag. -/
def iframeUndoGo : Nat → List Char → List Char
  | _, [] => []
  | 0, l => l
  | fuel + 1, c :: rest =>
    if c == '.' && ciLead rest iframePat then
      rest.take 9 ++ iframeUndoGo fuel (rest.drop 9)
    else c :: iframeUndoGo fuel rest

def iframeUndo (l : List Char) : List Char := iframeUndoGo l.length l

example : String.mk (iframeDot "x</IFRAME>y</iframe>".data) = "x.</IFRAME>y.</iframe>" := by rfl
example : String.mk (iframeUndo "x.</IFRAME>y".data) = "x</IFRAME>y" := by rfl

/-- `content.replace(/(-|\d+\.) +/g, '$1 ')`: after a `-` or a digit run
followed by `.`, collapse one-or-more spaces to a single space.  The
digit branch mirrors the regex: the greedy `\d+` takes the maximal digit
run; if `.` plus at least one space does not follow, no match starts at
this position and scanning advances one character. -/
def listFixGo : Nat → List Char → List Char
  | _, [] => []
  | 0, l => l
  | fuel + 1, c :: rest =>
    if c == '-' then
      match rest with
      | ' ' :: r2 => '-' :: ' ' :: listFixGo fuel (r2.dropWhile (fun d => d == ' '))
      | _ => '-' :: listFixGo fuel rest
    else if c.isDigit then
      match (c :: rest).dropWhile Char.isDigit with
      | '.' :: ' ' :: r2 =>
        (c :: rest).takeWhile Char.isDigit ++ '.' :: ' ' ::
          listFixGo fuel (r2.dropWhile (fun d => d == ' '))
      | _ => c :: listFixGo fuel rest
    else c :: listFixGo fuel rest

def listFix (l : List Char) : List Char := listFixGo l.length l

example : String.mk (listFix "- item; 12.   x; 3a; -  y".data) = "- item; 12. x; 3a; - y" := by rfl

/-- The rewrites `getPostContent` applies before invoking the engine:
trim, double line-break → separator div, the optional content-image
`src` rewrite (an external regex collaborator, passed as `imgSrcFix`),
and the iframe dot-insertion hack. -/
def preConvertRewrites (imgSrcFix : String → String) (argv : Argv) (raw : String) : String :=
  let content := String.mk (strTrim raw.data)
  let content := String.mk (divSepAux content.data)
  let content := if argv.addcontentimages then imgSrcFix content else content
  String.mk (iframeDot content.data)

/-- The rewrites applied after the engine: list-marker space collapse
and removal of the iframe-hack dots. -/
def postConvertRewrites (s : String) : String :=
  String.mk (iframeUndo (listFix s.data))

/-- `getPostContent` from src/index.js.  The turndown engine
(`turndownService.turndown`) is a third-party collaborator and is passed
in as `engine`. -/
def getPostContent (engine imgSrcFix : String → String) (argv : Argv) (raw : String) : String :=
  postConvertRewrites (engine (preConvertRewrites imgSrcFix argv raw))

/-! ### Rewrite lemmas for C8 -/

theorem strEqOfData (s t : String) (h : s.data = t.data) : s = t := by
  cases s; cases t; exact congrArg String.mk h

theorem ciEq_ne_lt (c : Char) (h : c ≠ '<') : ciEq c '<' = false := by
  unfold ciEq
  have h1 : (c == '<') = false := by simpa using h
  rw [h1]
  simp only [Bool.false_or]
  by_cases h65 : 65 ≤ c.toNat
  · by_cases h90 : c.toNat ≤ 90
    · have h2 : (c.toNat + 32 == ('<').toNat) = false := by
        have h3 : ('<').toNat = 60 := by decide
        rw [h3]
        simp only [beq_eq_false_iff_ne]
        omega
      simp only [h2, Bool.and_false]
    · simp [h90]
  · simp [h65]

theorem divSepAux_append (l m : List Char)
    (h : ∀ c ∈ l, c ≠ '\n' ∧ c ≠ '\r') :
    divSepAux (l ++ m) = l ++ divSepAux m := by
  induction l with
  | nil => rfl
  | cons c l' ih =>
    have hc := h c (List.mem_cons_self c l')
    have hrest : ∀ x ∈ l', x ≠ '\n' ∧ x ≠ '\r' := fun x hx => h x (List.mem_cons_of_mem _ hx)
    rw [List.cons_append, divSepAux.eq_def]
    split
    · rename_i heq; rw [List.cons.injEq] at heq; exact absurd heq.1 hc.2
    · rename_i heq; rw [List.cons.injEq] at heq; exact absurd heq.1 hc.2
    · rename_i heq; rw [List.cons.injEq] at heq; exact absurd heq.1 hc.1
    · rename_i heq; rw [List.cons.injEq] at heq; exact absurd heq.1 hc.1
    · rename_i heq
      rw [List.cons.injEq] at heq
      obtain ⟨h1, h2⟩ := heq
      subst h1
      subst h2
      rw [List.cons_append]
      exact congrArg (fun t => c :: t) (ih hrest)
    · rename_i heq; cases heq

theorem divSepAux_id (l : List Char) (h : ∀ c ∈ l, c ≠ '\n' ∧ c ≠ '\r') :
    divSepAux l = l := by
  have h2 := divSepAux_append l [] h
  rw [List.append_nil] at h2
  rw [h2]
  rw [show divSepAux [] = [] from rfl, List.append_nil]

theorem dropWhile_eq_self_of_head (p : Char → Bool) (l : List Char)
    (h : ∀ c, l.head? = some c → p c = false) : l.dropWhile p = l := by
  cases l with
  | nil => rfl
  | cons c cs => simp [List.dropWhile_cons, h c rfl]

theorem strTrim_id (l : List Char)
    (h1 : ∀ c, l.head? = some c → c.isWhitespace = false)
    (h2 : ∀ c, l.getLast? = some c → c.isWhitespace = false) :
    strTrim l = l := by
  unfold strTrim
  rw [dropWhile_eq_self_of_head _ _ h1]
  rw [dropWhile_eq_self_of_head _ _ (by intro c hc; exact h2 c (by rwa [List.head?_reverse] at hc))]
  exact List.reverse_reverse l

theorem ciLead_false_head (c : Char) (t p : List Char) (d : Char) (ds : List Char)
    (hp : p = d :: ds) (h : ciEq c d = false) : ciLead (c :: t) p = false := by
  subst hp
  simp [ciLead, h]

theorem iframeDotGo_step (fuel : Nat) (c : Char) (t : List Char)
    (h : ciLead (c :: t) iframePat = false) :
    iframeDotGo (fuel + 1) (c :: t) = c :: iframeDotGo fuel t := by
  rw [iframeDotGo.eq_def]
  simp [h]

theorem iframeDotGo_id (l : List Char) (h : ∀ c ∈ l, ciEq c '<' = false) :
    ∀ fuel : Nat, iframeDotGo fuel l = l := by
  induction l with
  | nil => intro fuel; cases fuel <;> rfl
  | cons c cs ih =>
    intro fuel
    cases fuel with
    | zero => rfl
    | succ fuel =>
      rw [iframeDotGo_step fuel c cs
        (ciLead_false_head c cs iframePat '<' "/iframe>".data rfl
          (h c (List.mem_cons_self c cs)))]
      rw [ih (fun x hx => h x (List.mem_cons_of_mem _ hx)) fuel]

theorem iframeDotGo_append (l : List Char) (h : ∀ c ∈ l, ciEq c '<' = false) :
    ∀ (fuel : Nat) (m : List Char),
      iframeDotGo (l.length + fuel) (l ++ m) = l ++ iframeDotGo fuel m := by
  induction l with
  | nil => intro fuel m; simp
  | cons c cs ih =>
    intro fuel m
    have hlen : (c :: cs).length + fuel = (cs.length + fuel) + 1 := by
      simp [List.length_cons]; omega
    rw [hlen, List.cons_append]
    rw [iframeDotGo_step (cs.length + fuel) c (cs ++ m)
      (ciLead_false_head c (cs ++ m) iframePat '<' "/iframe>".data rfl
        (h c (List.mem_cons_self c cs)))]
    rw [ih (fun x hx => h x (List.mem_cons_of_mem _ hx)) fuel m]
    rfl

theorem ciLead_head (c : Char) (t : List Char) (h : ciEq c '<' = false) :
    ciLead (c :: t) iframePat = false :=
  ciLead_false_head c t iframePat '<' "/iframe>".data rfl h

theorem ciLead_two (c1 c2 : Char) (t : List Char) (h : ciEq c2 '/' = false) :
    ciLead (c1 :: c2 :: t) iframePat = false := by
  have hp : iframePat = '<' :: '/' :: 'i' :: 'f' :: 'r' :: 'a' :: 'm' :: 'e' :: '>' :: [] := rfl
  rw [hp]
  simp [ciLead, h]

theorem ciLead_three (c1 c2 c3 : Char) (t : List Char) (h : ciEq c3 'i' = false) :
    ciLead (c1 :: c2 :: c3 :: t) iframePat = false := by
  have hp : iframePat = '<' :: '/' :: 'i' :: 'f' :: 'r' :: 'a' :: 'm' :: 'e' :: '>' :: [] := rfl
  rw [hp]
  simp [ciLead, h]

theorem iframeDotGo_sep (fuel : Nat) (m : List Char) :
    iframeDotGo (fuel + 13) (divSeparator ++ m) = divSeparator ++ iframeDotGo fuel m := by
  have hsep : divSeparator ++ m
      = '\n' :: '<' :: 'd' :: 'i' :: 'v' :: '>' :: '<' :: '/' :: 'd' :: 'i' :: 'v' :: '>' :: '\n' :: m := rfl
  rw [hsep]
  rw [show fuel + 13 = (fuel + 12) + 1 from rfl,
    iframeDotGo_step (fuel + 12) '\n' _ (ciLead_head _ _ (by decide))]
  rw [show fuel + 12 = (fuel + 11) + 1 from rfl,
    iframeDotGo_step (fuel + 11) '<' _ (ciLead_two _ 'd' _ (by decide))]
  rw [show fuel + 11 = (fuel + 10) + 1 from rfl,
    iframeDotGo_step (fuel + 10) 'd' _ (ciLead_head _ _ (by decide))]
  rw [show fuel + 10 = (fuel + 9) + 1 from rfl,
    iframeDotGo_step (fuel + 9) 'i' _ (ciLead_head _ _ (by decide))]
  rw [show fuel + 9 = (fuel + 8) + 1 from rfl,
    iframeDotGo_step (fuel + 8) 'v' _ (ciLead_head _ _ (by decide))]
  rw [show fuel + 8 = (fuel + 7) + 1 from rfl,
    iframeDotGo_step (fuel + 7) '>' _ (ciLead_head _ _ (by decide))]
  rw [show fuel + 7 = (fuel + 6) + 1 from rfl,
    iframeDotGo_step (fuel + 6) '<' _ (ciLead_three _ '/' 'd' _ (by decide))]
  rw [show fuel + 6 = (fuel + 5) + 1 from rfl,
    iframeDotGo_step (fuel + 5) '/' _ (ciLead_head _ _ (by decide))]
  rw [show fuel + 5 = (fuel + 4) + 1 from rfl,
    iframeDotGo_step (fuel + 4) 'd' _ (ciLead_head _ _ (by decide))]
  rw [show fuel + 4 = (fuel + 3) + 1 from rfl,
    iframeDotGo_step (fuel + 3) 'i' _ (ciLead_head _ _ (by decide))]
  rw [show fuel + 3 = (fuel + 2) + 1 from rfl,
    iframeDotGo_step (fuel + 2) 'v' _ (ciLead_head _ _ (by decide))]
  rw [show fuel + 2 = (fuel + 1) + 1 from rfl,
    iframeDotGo_step (fuel + 1) '>' _ (ciLead_head _ _ (by decide))]
  rw [show fuel + 1 = fuel + 1 from rfl,
    iframeDotGo_step fuel '\n' _ (ciLead_head _ _ (by decide))]
  rfl

theorem iframeUndoGo_id (l : List Char) (h : '.' ∉ l) :
    ∀ fuel : Nat, iframeUndoGo fuel l = l := by
  induction l with
  | nil => intro fuel; cases fuel <;> rfl
  | cons c cs ih =>
    intro fuel
    cases fuel with
    | zero => rfl
    | succ fuel =>
      have hc : (c == '.') = false := by
        simp only [beq_eq_false_iff_ne]
        intro hcc
        exact h (hcc ▸ List.mem_cons_self c cs)
      rw [iframeUndoGo.eq_def]
      simp only [hc, Bool.false_and, Bool.false_eq_true, if_false]
      rw [ih (fun hx => h (List.mem_cons_of_mem _ hx)) fuel]

theorem listFixGo_id (l : List Char) (hm : '-' ∉ l) (hd : '.' ∉ l) :
    ∀ fuel : Nat, listFixGo fuel l = l := by
  induction l with
  | nil => intro fuel; cases fuel <;> rfl
  | cons c cs ih =>
    intro fuel
    cases fuel with
    | zero => rfl
    | succ fuel =>
      have hmc : (c == '-') = false := by
        simp only [beq_eq_false_iff_ne]
        intro hcc
        exact hm (hcc ▸ List.mem_cons_self c cs)
      have ihcs := ih (fun hx => hm (List.mem_cons_of_mem _ hx))
        (fun hx => hd (List.mem_cons_of_mem _ hx))
      rw [listFixGo.eq_def]
      simp only [hmc, Bool.false_eq_true, if_false]
      by_cases hdig : c.isDigit = true
      · rw [if_pos hdig]
        cases hdw : (c :: cs).dropWhile Char.isDigit with
        | nil =>
          show c :: listFixGo fuel cs = c :: cs
          rw [ihcs fuel]
        | cons y ys =>
          have hy : y ∈ c :: cs :=
            (List.dropWhile_sublist Char.isDigit).subset (hdw ▸ List.mem_cons_self y ys)
          have hyne : y ≠ '.' := by
            intro hyy
            rw [hyy] at hy
            rcases List.mem_cons.mp hy with h1 | h1
            · exact hd (h1 ▸ List.mem_cons_self c cs)
            · exact hd (List.mem_cons_of_mem _ h1)
          split
          · rename_i r2 heq
            rw [List.cons.injEq] at heq
            exact absurd heq.1 hyne
          · rw [ihcs fuel]
      · rw [if_neg hdig]
        rw [ihcs fuel]

/-- C8: for a body made of two paragraphs of plain text separated by a
blank line, `getPostContent` first replaces the double line-break with
the zero-content `<div></div>` separator before invoking the generic
conversion engine (first conjunct), and — given the engine's documented
behaviour of turning the separator back into a paragraph break — the
converted output keeps the two paragraphs separate (second conjunct).
The hypotheses restrict `a` and `b` to paragraph text without the
rewrite trigger characters, and require the engine/image collaborators
to behave as documented on this input. -/
theorem C8_paragraphs_stay_separate (engine imgSrcFix : String → String) (argv : Argv)
    (a b : String)
    (ha : ∀ c ∈ a.data, c ≠ '\n' ∧ c ≠ '\r' ∧ c ≠ '<' ∧ c ≠ '-' ∧ c ≠ '.')
    (hb : ∀ c ∈ b.data, c ≠ '\n' ∧ c ≠ '\r' ∧ c ≠ '<' ∧ c ≠ '-' ∧ c ≠ '.')
    (hane : a.data ≠ []) (hbne : b.data ≠ [])
    (hha : ∀ c, a.data.head? = some c → c.isWhitespace = false)
    (hlb : ∀ c, b.data.getLast? = some c → c.isWhitespace = false)
    (himg : imgSrcFix (a ++ "\n<div></div>\n" ++ b) = a ++ "\n<div></div>\n" ++ b)
    (hengine : engine (a ++ "\n<div></div>\n" ++ b) = a ++ "\n\n" ++ b) :
    preConvertRewrites imgSrcFix argv (a ++ "\n\n" ++ b) = a ++ "\n<div></div>\n" ++ b ∧
    getPostContent engine imgSrcFix argv (a ++ "\n\n" ++ b) = a ++ "\n\n" ++ b := by
  have hdata : (a ++ "\n\n" ++ b).data = a.data ++ ('\n' :: '\n' :: b.data) := by
    show (a.data ++ ['\n', '\n']) ++ b.data = _
    rw [List.append_assoc]
    rfl
  have htrim : strTrim ((a ++ "\n\n" ++ b).data) = (a ++ "\n\n" ++ b).data := by
    apply strTrim_id
    · intro c hc
      rw [hdata, List.head?_append] at hc
      cases h0 : a.data.head? with
      | none => exact absurd (List.head?_eq_none_iff.mp h0) hane
      | some c0 =>
        rw [h0] at hc
        simp only [Option.or_some, Option.some.injEq] at hc
        exact hc ▸ hha c0 h0
    · intro c hc
      rw [hdata, List.getLast?_append] at hc
      have hmid2 : ('\n' :: '\n' :: b.data).getLast? = b.data.getLast? := by
        show ((['\n', '\n'] : List Char) ++ b.data).getLast? = _
        rw [List.getLast?_append]
        cases hg : b.data.getLast? with
        | none => exact absurd (List.getLast?_eq_none_iff.mp hg) hbne
        | some cl => rfl
      rw [hmid2] at hc
      cases hg : b.data.getLast? with
      | none => exact absurd (List.getLast?_eq_none_iff.mp hg) hbne
      | some cl =>
        rw [hg] at hc
        simp only [Option.or_some, Option.some.injEq] at hc
        exact hc ▸ hlb cl hg
  have hdiv : divSepAux (a.data ++ ('\n' :: '\n' :: b.data))
      = a.data ++ (divSeparator ++ b.data) := by
    rw [divSepAux_append a.data _ (fun c hc => ⟨(ha c hc).1, (ha c hc).2.1⟩)]
    have hstep : divSepAux ('\n' :: '\n' :: b.data) = divSeparator ++ divSepAux b.data := rfl
    rw [hstep, divSepAux_id b.data (fun c hc => ⟨(hb c hc).1, (hb c hc).2.1⟩)]
  have hmid : String.mk (a.data ++ (divSeparator ++ b.data)) = a ++ "\n<div></div>\n" ++ b := by
    apply strEqOfData
    show a.data ++ (divSeparator ++ b.data) = (a.data ++ divSeparator) ++ b.data
    rw [List.append_assoc]
  have hiframe : iframeDot (a.data ++ (divSeparator ++ b.data))
      = a.data ++ (divSeparator ++ b.data) := by
    unfold iframeDot
    have hAci : ∀ c ∈ a.data, ciEq c '<' = false :=
      fun c hc => ciEq_ne_lt c (ha c hc).2.2.1
    have hBci : ∀ c ∈ b.data, ciEq c '<' = false :=
      fun c hc => ciEq_ne_lt c (hb c hc).2.2.1
    rw [show (a.data ++ (divSeparator ++ b.data)).length
        = a.data.length + (divSeparator ++ b.data).length from by rw [List.length_append]]
    rw [iframeDotGo_append a.data hAci ((divSeparator ++ b.data).length) (divSeparator ++ b.data)]
    rw [show (divSeparator ++ b.data).length = b.data.length + 13 from by
      rw [List.length_append]; simp [divSeparator]; omega]
    rw [iframeDotGo_sep b.data.length b.data]
    rw [iframeDotGo_id b.data hBci b.data.length]
  have hpre : preConvertRewrites imgSrcFix argv (a ++ "\n\n" ++ b)
      = a ++ "\n<div></div>\n" ++ b := by
    unfold preConvertRewrites
    simp only [htrim]
    rw [show (String.mk ((a ++ "\n\n" ++ b).data)).data = (a ++ "\n\n" ++ b).data from rfl]
    rw [hdata, hdiv]
    by_cases haci : argv.addcontentimages = true
    · simp only [haci, if_true]
      rw [hmid, himg]
      rw [show (a ++ "\n<div></div>\n" ++ b).data = a.data ++ (divSeparator ++ b.data) from by
        show (a.data ++ divSeparator) ++ b.data = _
        rw [List.append_assoc]]
      rw [hiframe, hmid]
    · simp only [haci, Bool.false_eq_true, if_false]
      show String.mk (iframeDot (a.data ++ (divSeparator ++ b.data))) = _
      rw [hiframe, hmid]
  refine ⟨hpre, ?_⟩
  have hnotdash : '-' ∉ (a ++ "\n\n" ++ b).data := by
    rw [hdata]
    intro hmem
    rcases List.mem_append.mp hmem with h1 | h1
    · exact (ha _ h1).2.2.2.1 rfl
    · rcases List.mem_cons.mp h1 with h2 | h2
      · cases h2
      · rcases List.mem_cons.mp h2 with h3 | h3
        · cases h3
        · exact (hb _ h3).2.2.2.1 rfl
  have hnotdot : '.' ∉ (a ++ "\n\n" ++ b).data := by
    rw [hdata]
    intro hmem
    rcases List.mem_append.mp hmem with h1 | h1
    · exact (ha _ h1).2.2.2.2 rfl
    · rcases List.mem_cons.mp h1 with h2 | h2
      · cases h2
      · rcases List.mem_cons.mp h2 with h3 | h3
        · cases h3
        · exact (hb _ h3).2.2.2.2 rfl
  have hpost : postConvertRewrites (a ++ "\n\n" ++ b) = a ++ "\n\n" ++ b := by
    unfold postConvertRewrites
    unfold listFix
    rw [listFixGo_id _ hnotdash hnotdot]
    unfold iframeUndo
    rw [iframeUndoGo_id _ hnotdot]
  unfold getPostContent
  rw [hpre, hengine, hpost]

/-- Witness for C8 at two concrete paragraphs; the engine is
instantiated with the (constant) function that behaves as turndown does
on this input, and the image rewrite with the identity. -/
theorem C8_paragraphs_stay_separate_witness :
    preConvertRewrites (fun s => s) demoArgvPost ("Hello there" ++ "\n\n" ++ "General Kenobi")
        = "Hello there" ++ "\n<div></div>\n" ++ "General Kenobi" ∧
    getPostContent (fun _ => "Hello there" ++ "\n\n" ++ "General Kenobi") (fun s => s)
        demoArgvPost ("Hello there" ++ "\n\n" ++ "General Kenobi")
        = "Hello there" ++ "\n\n" ++ "General Kenobi" :=
  C8_paragraphs_stay_separate (fun _ => "Hello there" ++ "\n\n" ++ "General Kenobi")
    (fun s => s) demoArgvPost "Hello there" "General Kenobi"
    (by decide) (by decide) (by decide) (by decide)
    (by
      intro c hc
      rw [show ("Hello there" : String).data.head? = some 'H' from rfl] at hc
      cases hc
      rfl)
    (by
      intro c hc
      rw [show ("General Kenobi" : String).data.getLast? = some 'i' from rfl] at hc
      cases hc
      rfl)
    rfl rfl

end WpExport
